import Mathlib

/-!
Shallow embedding of the size-plugin-core logic
(src/tmp/packages/size-plugin-core/size-plugin-core.js and
src/packages/size-plugin-core/util.js).

JavaScript objects used as string-keyed maps are modelled as association
lists in insertion order (`JsObj`).  Property assignment updates the value
of an existing key in place and appends a fresh key at the end, exactly as
JS objects behave.  Sizes are integers (byte counts); a `none` value stands
for JS `null`/`undefined`.  Chalk-styled strings are modelled as a small
text tree (`Txt`) whose constructors mirror string concatenation and the
chalk wrappers, with the pretty-printer `prettyBytes` kept abstract as a
function parameter `pb`.
-/

namespace SizePluginCore

/-- A JS object used as a map: association list in key-insertion order. -/
def JsObj (α : Type) : Type := List (String × α)

instance : Membership (String × α) (JsObj α) := inferInstanceAs (Membership _ (List _))

/-- JS property write `m[k] = v`: update in place if the key exists, else append. -/
def objInsert : JsObj α → String → α → JsObj α
  | [], k, v => [(k, v)]
  | p :: rest, k, v => if p.1 = k then (p.1, v) :: rest else p :: objInsert rest k v

/-- JS property read `m[k]` (first matching key). -/
def objLookup (m : JsObj α) (k : String) : Option α := List.lookup k m

/-- `Object.keys(m)` in insertion order. -/
def objKeys (m : JsObj α) : List String := m.map Prod.fst

/-- JS `m[name] || 0`: a missing key, a `null` value and a `0` value all give `0`. -/
def jsOr0 (m : JsObj (Option Int)) (k : String) : Int :=
  match objLookup m k with
  | some (some v) => v
  | _ => 0

/-- util.js `toMap(names, values)`:
`names.reduce((map, name, i) => { map[name] = values[i]; return map; }, {})`. -/
def toMap (names : List String) (values : List (Option Int)) : JsObj (Option Int) :=
  names.enum.foldl (fun map p => objInsert map p.2 (values.getD p.1 none)) []

/-- util.js `dedupe(item, index, arr) = arr.indexOf(item) === index`, used as
`arr.filter(dedupe)`: keeps exactly the first occurrence of each element. -/
def dedupe (arr : List String) : List String :=
  (arr.enum.filter (fun p => arr.indexOf p.2 == p.1)).map Prod.snd

/-- One persisted file entry of a snapshot
(`{ filename, previous, size, diff }` as written by `save`). -/
structure FileRec where
  filename : String
  previous : Int
  size : Int
  diff : Int
deriving DecidableEq, Repr

/-- util.js `toFileMap(files)`: keep entries whose `size` is truthy (nonzero). -/
def toFileMap (files : List FileRec) : JsObj (Option Int) :=
  files.foldl
    (fun result file =>
      if file.size ≠ 0 then objInsert result file.filename (some file.size) else result)
    []

/-- One snapshot `{ timestamp, files }` of the persisted history. -/
structure Snapshot where
  timestamp : Int
  files : List FileRec
deriving DecidableEq, Repr

/-- `oldStats.sort((a, b) => b.timestamp - a.timestamp)`: stable sort,
descending by timestamp (JS `Array.prototype.sort` is stable). -/
def sortDesc (hist : List Snapshot) : List Snapshot :=
  hist.mergeSort (fun s t => decide (t.timestamp ≤ s.timestamp))

/-- `readFromDisk`: the outcome of `fs.readJSON` is modelled as
`none` (missing file / unparsable content, i.e. the catch branch) or
`some hist` (the parsed array); on success the array is sorted descending
by timestamp, on failure the result is `[]`. -/
def readFromDiskPure : Option (List Snapshot) → List Snapshot
  | some oldStats => sortDesc oldStats
  | none => []

/-- `load(outputPath)`: use the most recent snapshot of the history if the
history is non-empty, otherwise fall back to the disk scan (whose result is
passed here as `fallback`). -/
def loadPure (r : Option (List Snapshot)) (fallback : JsObj (Option Int)) :
    JsObj (Option Int) :=
  match readFromDiskPure r with
  | s :: _ => toFileMap s.files
  | [] => fallback

/-- `filterFiles(files)`: keep files matched by the tracked pattern and not
matched by the exclude pattern; the two minimatch predicates are abstract. -/
def filterFiles (isMatched isExcluded : String → Bool) (files : List String) :
    List String :=
  files.filter (fun file => isMatched file && !isExcluded file)

/-- `getSizes(cwd)`: `files` is the glob result, `compressFile f` the outcome of
`compressionSize.file(path.join(cwd, f)).catch(() => null)` (`none` = failure
degraded to `null`).  Note the source maps `compressFile` over
`filterFiles(files)` but normalizes the names of all of `files`. -/
def getSizes (strip : String → String) (isMatched isExcluded : String → Bool)
    (compressFile : String → Option Int) (files : List String) :
    JsObj (Option Int) :=
  toMap (files.map strip) ((filterFiles isMatched isExcluded files).map compressFile)

/-- Chalk-styled text modelled as a tree: `raw` a plain string, `colored` /
`bold` the chalk wrappers, `cat` string concatenation. -/
inductive Txt where
  | raw (s : String)
  | colored (c : String) (t : Txt)
  | bold (t : Txt)
  | cat (a b : Txt)
deriving DecidableEq, Repr

/-- Severity color of the current size (the nested conditional in `outputSizes`). -/
def sizeColor (size : Int) : String :=
  if size > 100 * 1024 then "red"
  else if size > 40 * 1024 then "yellow"
  else if size > 20 * 1024 then "cyan"
  else "green"

/-- `new Array(n).join(" ")`: `n - 1` spaces (empty for `n = 0`). -/
def jsJoinSpaces (n : Nat) : String :=
  String.mk (List.replicate (n - 1) ' ')

/-- One reconciled display item as built in the `outputSizes` loop. -/
structure Item where
  name : String
  sizeBefore : Int
  size : Int
  sizeText : Txt
  delta : Int
  deltaText : Txt
  msg : String
  color : String
deriving DecidableEq, Repr

/-- The body of the `for (const name of files)` loop of `outputSizes`,
producing one `Item`.  `pb` is the abstract `prettyBytes`. -/
def mkItem (pb : Int → String) (sizesBefore finalSizes : JsObj (Option Int))
    (width : Nat) (name : String) : Item :=
  let size := jsOr0 finalSizes name
  let sizeBefore := jsOr0 sizesBefore name
  let delta := size - sizeBefore
  let msg := jsJoinSpaces (width - name.length + 2) ++ name ++ " ⏤  "
  let color := sizeColor size
  let sizeText := Txt.colored color (Txt.raw (pb size))
  if delta ≠ 0 ∧ 1 < delta.natAbs then
    let deltaText := Txt.raw ((if 0 < delta then "+" else "") ++ pb delta)
    let styled :=
      if 1024 < delta then (Txt.bold sizeText, Txt.colored "red" deltaText)
      else if delta < -10 then (sizeText, Txt.colored "green" deltaText)
      else (sizeText, deltaText)
    { name := name, sizeBefore := sizeBefore, size := size,
      sizeText := Txt.cat styled.1
        (Txt.cat (Txt.raw " (") (Txt.cat styled.2 (Txt.raw ")"))),
      delta := delta, deltaText := styled.2, msg := msg, color := color }
  else
    { name := name, sizeBefore := sizeBefore, size := size, sizeText := sizeText,
      delta := delta, deltaText := Txt.raw "", msg := msg, color := color }

/-- `Math.max(...files.map(f => f.length))` (only used when `files` is non-empty). -/
def jsMaxLen (files : List String) : Nat :=
  files.foldl (fun m file => max m file.length) 0

/-- The reconciliation part of `outputSizes`: union the keys (deduplicated,
first occurrence wins) and build one `Item` per name. -/
def reconcile (pb : Int → String) (sizesBefore finalSizes : JsObj (Option Int)) :
    List Item :=
  let files := dedupe (objKeys sizesBefore ++ objKeys finalSizes)
  let width := jsMaxLen files
  files.map (mkItem pb sizesBefore finalSizes width)

/-- The configuration fields of `opt` relevant to persistence:
`mode`, `writeFile`, `publish`, and whether a custom `save` hook is set. -/
structure Opt where
  mode : String
  writeFile : Bool
  publish : Bool
  hasSave : Bool
deriving DecidableEq, Repr

/-- The snapshot object built at the top of `save(files)`. -/
def mkStats (now : Int) (files : List Item) : Snapshot :=
  { timestamp := now,
    files := files.map (fun file =>
      { filename := file.name, previous := file.sizeBefore,
        size := file.size, diff := file.size - file.sizeBefore }) }

/-- The externally observable effects of `writeToDisk`:
what was written to the local file and what was passed to `publishSizes`. -/
structure Effects where
  written : Option (List Snapshot)
  publishedSizes : Option (List Snapshot)
deriving DecidableEq, Repr

/-- `writeToDisk(filename, stats)`: gated on production mode and at least one
nonzero `diff`; inside the gate, the history is re-read, the new snapshot
prepended, and the local write / remote size publish are each independently
enabled by `opt.writeFile` / `opt.publish`. -/
def writeToDisk (opt : Opt) (r : Option (List Snapshot)) (stats : Snapshot) :
    Effects :=
  if opt.mode = "production" ∧ stats.files.any (fun file => file.diff != 0) then
    let data := stats :: readFromDiskPure r
    { written := if opt.writeFile then some data else none,
      publishedSizes := if opt.publish then some data else none }
  else
    { written := none, publishedSizes := none }

/-- The externally observable effects of `save`:
the snapshot handed to `publishDiff`, the snapshot handed to the custom save
hook, and the disk effects of `writeToDisk`. -/
structure SaveEffects where
  publishedDiff : Option Snapshot
  savedHook : Option Snapshot
  disk : Effects
deriving DecidableEq, Repr

/-- `save(files)`: build the snapshot, call `publishDiff` when `opt.publish`
is set, call the custom hook when configured, then `writeToDisk`. -/
def save (opt : Opt) (r : Option (List Snapshot)) (now : Int)
    (files : List Item) : SaveEffects :=
  let stats := mkStats now files
  { publishedDiff := if opt.publish then some stats else none,
    savedHook := if opt.hasSave then some stats else none,
    disk := writeToDisk opt r stats }

/-- `outputSizes(assets, outputPath)` (items and effects): load the baseline,
filter and measure the current assets (`assetSize` is the abstract
`compressionSize` of an asset's source), reconcile, then `save`. -/
def outputSizesModel (opt : Opt) (pb : Int → String) (strip : String → String)
    (isMatched isExcluded : String → Bool) (compressFile : String → Option Int)
    (r : Option (List Snapshot)) (globFiles : List String)
    (assetNames : List String) (assetSize : String → Int) (now : Int) :
    List Item × SaveEffects :=
  let sizesBefore :=
    loadPure r (getSizes strip isMatched isExcluded compressFile globFiles)
  let names := filterFiles isMatched isExcluded assetNames
  let finalSizes := toMap (names.map strip) (names.map (fun n => some (assetSize n)))
  let items := reconcile pb sizesBefore finalSizes
  (items, save opt r now items)

/-! ### Helper lemmas about the association-list map operations -/

theorem objLookup_nil (k : String) : objLookup (α := α) [] k = none := rfl

theorem objLookup_cons (p : String × α) (rest : JsObj α) (k : String) :
    objLookup (p :: rest) k = if k = p.1 then some p.2 else objLookup rest k := by
  cases p with
  | mk a b =>
    show List.lookup k ((a, b) :: rest) = _
    rw [List.lookup_cons]
    by_cases h : k = a
    · simp [h]
    · have hb : (k == a) = false := beq_eq_false_iff_ne.mpr h
      simp [hb, h, objLookup]

theorem objLookup_objInsert_self (m : JsObj α) (k : String) (v : α) :
    objLookup (objInsert m k v) k = some v := by
  induction m with
  | nil => simp [objInsert, objLookup_cons, objLookup_nil]
  | cons p rest ih =>
    by_cases h : p.1 = k
    · simp [objInsert, h, objLookup_cons]
    · simp only [objInsert, h, if_false]
      rw [objLookup_cons, if_neg (fun hk => h hk.symm), ih]

theorem objLookup_objInsert_ne (m : JsObj α) (k k' : String) (v : α)
    (h : k' ≠ k) : objLookup (objInsert m k v) k' = objLookup m k' := by
  induction m with
  | nil => simp [objInsert, objLookup_cons, objLookup_nil, h]
  | cons p rest ih =>
    by_cases hp : p.1 = k
    · simp only [objInsert, hp, if_true]
      rw [objLookup_cons, objLookup_cons, hp]
      simp [h]
    · simp only [objInsert, hp, if_false]
      rw [objLookup_cons, objLookup_cons, ih]

theorem foldl_objInsert_lookup_of_not_mem (values : List (Option Int))
    (l : List (Nat × String)) (acc : JsObj (Option Int)) (k : String)
    (h : ∀ p ∈ l, p.2 ≠ k) :
    objLookup (l.foldl (fun map p => objInsert map p.2 (values.getD p.1 none)) acc) k
      = objLookup acc k := by
  induction l generalizing acc with
  | nil => rfl
  | cons p rest ih =>
    rw [List.foldl_cons, ih _ (fun q hq => h q (List.mem_cons_of_mem p hq)),
      objLookup_objInsert_ne]
    exact fun hk => h p (List.mem_cons_self p rest) hk.symm

theorem foldl_objInsert_lookup_last (values : List (Option Int))
    (l₁ : List (Nat × String)) (i : Nat) (l₂ : List (Nat × String))
    (acc : JsObj (Option Int)) (k : String) (h : ∀ p ∈ l₂, p.2 ≠ k) :
    objLookup
      ((l₁ ++ (i, k) :: l₂).foldl
        (fun map p => objInsert map p.2 (values.getD p.1 none)) acc) k
      = some (values.getD i none) := by
  rw [List.foldl_append, List.foldl_cons, foldl_objInsert_lookup_of_not_mem values l₂ _ k h,
    objLookup_objInsert_self]

theorem toMap_lookup_last (names : List String) (values : List (Option Int))
    (j : Nat) (k : String) (hj : names[j]? = some k)
    (hlast : ∀ l, j < l → names[l]? ≠ some k) :
    objLookup (toMap names values) k = some (values.getD j none) := by
  have hjlt : j < names.length := by
    by_contra hge
    rw [List.getElem?_eq_none (Nat.le_of_not_lt hge)] at hj
    exact Option.noConfusion hj
  have hjget : names[j] = k := by
    rw [List.getElem?_eq_getElem hjlt] at hj
    exact Option.some.inj hj
  have hdecomp : names = names.take j ++ k :: names.drop (j + 1) := by
    conv_lhs => rw [← List.take_append_drop j names]
    rw [List.drop_eq_getElem_cons hjlt, hjget]
  have hlen : (names.take j).length = j := by
    rw [List.length_take]
    exact Nat.min_eq_left (Nat.le_of_lt hjlt)
  rw [toMap]
  conv_lhs => rw [hdecomp]
  rw [List.enum_append, List.enumFrom_cons, hlen]
  refine foldl_objInsert_lookup_last values _ j _ [] k ?_
  intro p hp
  obtain ⟨hle, hlt, hval⟩ := List.mem_enumFrom hp
  intro hpk
  have hidx : j + 1 + (p.1 - (j + 1)) < names.length := by
    have := List.length_drop (j + 1) names
    omega
  have hgd := List.getElem_drop' names (i := j + 1) (j := p.1 - (j + 1)) hidx
  refine hlast (j + 1 + (p.1 - (j + 1))) (by omega) ?_
  rw [List.getElem?_eq_getElem hidx]
  exact congrArg some ((hgd.trans hval.symm).trans hpk)

theorem toMap_lookup_nodup (names : List String) (values : List (Option Int))
    (j : Nat) (k : String) (hnd : names.Nodup) (hj : names[j]? = some k) :
    objLookup (toMap names values) k = some (values.getD j none) := by
  refine toMap_lookup_last names values j k hj ?_
  intro l hl hlk
  have hllt : l < names.length := by
    by_contra hge
    rw [List.getElem?_eq_none (Nat.le_of_not_lt hge)] at hlk
    exact Option.noConfusion hlk
  have hjlt : j < names.length := Nat.lt_trans hl hllt
  rw [List.getElem?_eq_getElem hllt] at hlk
  rw [List.getElem?_eq_getElem hjlt] at hj
  have heq : names[j] = names[l] := by
    rw [Option.some.inj hj, Option.some.inj hlk]
  have h1 := List.indexOf_getElem hnd j hjlt
  have h2 := List.indexOf_getElem hnd l hllt
  rw [heq] at h1
  omega

theorem dedupe_append_eq (kb ka : List String) (hb : kb.Nodup) (ha : ka.Nodup) :
    dedupe (kb ++ ka) = kb ++ ka.filter (fun k => !kb.contains k) := by
  rw [dedupe, List.enum_append, List.filter_append, List.map_append]
  have hA : (kb.enum.filter (fun p => (kb ++ ka).indexOf p.2 == p.1)) = kb.enum := by
    rw [List.filter_eq_self]
    intro p hp
    obtain ⟨hlt, hval⟩ := List.mem_enum hp
    have hmem : p.2 ∈ kb := by
      rw [hval]
      exact List.getElem_mem hlt
    rw [List.indexOf_append_of_mem hmem]
    have : kb.indexOf p.2 = p.1 := by
      rw [hval]
      exact List.indexOf_getElem hb p.1 hlt
    rw [this]
    exact beq_self_eq_true p.1
  have hB : ((ka.enumFrom kb.length).filter (fun p => (kb ++ ka).indexOf p.2 == p.1))
      = (ka.enumFrom kb.length).filter (fun p => !kb.contains p.2) := by
    refine List.filter_congr ?_
    intro p hp
    obtain ⟨hle, hlt, hval⟩ := List.mem_enumFrom hp
    by_cases hmem : p.2 ∈ kb
    · have h1 : (kb ++ ka).indexOf p.2 = kb.indexOf p.2 := List.indexOf_append_of_mem hmem
      have h2 : kb.indexOf p.2 < kb.length := List.indexOf_lt_length.mpr hmem
      have hne : ((kb ++ ka).indexOf p.2 == p.1) = false := by
        rw [h1]
        exact beq_eq_false_iff_ne.mpr (by omega)
      have hc : kb.contains p.2 = true := by
        rw [List.contains_eq_any_beq]
        exact List.any_eq_true.mpr ⟨p.2, hmem, beq_self_eq_true p.2⟩
      rw [hne, hc]
      rfl
    · have h1 : (kb ++ ka).indexOf p.2 = kb.length + ka.indexOf p.2 :=
        List.indexOf_append_of_not_mem hmem
      have hilt : p.1 - kb.length < ka.length := by
        have := List.length_drop kb.length ka
        omega
      have h2 : ka.indexOf p.2 = p.1 - kb.length := by
        rw [hval]
        exact List.indexOf_getElem ha _ hilt
      have heq : ((kb ++ ka).indexOf p.2 == p.1) = true := by
        rw [h1, h2]
        exact beq_iff_eq.mpr (by omega)
      have hc : kb.contains p.2 = false := by
        rw [List.contains_eq_any_beq]
        refine List.any_eq_false.mpr ?_
        intro x hx
        exact fun hbeq => hmem ((eq_of_beq hbeq).symm ▸ hx)
      rw [heq, hc]
      rfl
  rw [hA, hB, List.enum_map_snd]
  congr 1
  have hcomp : (fun p : Nat × String => !kb.contains p.2)
      = (fun k => !kb.contains k) ∘ Prod.snd := rfl
  rw [hcomp, ← List.filter_map, List.enumFrom_map_snd]

theorem contains_eq_decide_mem (l : List String) (k : String) :
    l.contains k = decide (k ∈ l) := by
  by_cases h : k ∈ l
  · rw [List.contains_eq_any_beq, decide_eq_true h]
    exact List.any_eq_true.mpr ⟨k, h, beq_self_eq_true k⟩
  · rw [List.contains_eq_any_beq, decide_eq_false h]
    refine List.any_eq_false.mpr ?_
    intro x hx
    exact fun hbeq => h ((eq_of_beq hbeq).symm ▸ hx)

theorem foldl_toFileMap_lookup_of_not_mem (files : List FileRec)
    (acc : JsObj (Option Int)) (name : String)
    (h : ∀ f ∈ files, f.filename ≠ name) :
    objLookup
      (files.foldl
        (fun result file =>
          if file.size ≠ 0 then objInsert result file.filename (some file.size)
          else result) acc) name
      = objLookup acc name := by
  induction files generalizing acc with
  | nil => rfl
  | cons f rest ih =>
    rw [List.foldl_cons, ih _ (fun g hg => h g (List.mem_cons_of_mem f hg))]
    by_cases hz : f.size ≠ 0
    · rw [if_pos hz, objLookup_objInsert_ne]
      exact fun he => h f (List.mem_cons_self f rest) he.symm
    · rw [if_neg hz]

theorem toFileMap_lookup (files : List FileRec)
    (hnd : (files.map FileRec.filename).Nodup) (f : FileRec) (hf : f ∈ files) :
    objLookup (toFileMap files) f.filename
      = if f.size ≠ 0 then some (some f.size) else none := by
  obtain ⟨l₁, l₂, hdec⟩ := List.append_of_mem hf
  subst hdec
  have hnd' := hnd
  rw [List.map_append, List.map_cons, List.nodup_append] at hnd'
  obtain ⟨hnd₁, hnd₂, hdisj⟩ := hnd'
  have h₂ : ∀ g ∈ l₂, g.filename ≠ f.filename := by
    intro g hg he
    exact (List.nodup_cons.mp hnd₂).1 (he ▸ List.mem_map_of_mem FileRec.filename hg)
  have h₁ : ∀ g ∈ l₁, g.filename ≠ f.filename := by
    intro g hg he
    exact hdisj (List.mem_map_of_mem FileRec.filename hg)
      (by rw [he]; exact List.mem_cons_self _ _)
  rw [toFileMap, List.foldl_append, List.foldl_cons,
    foldl_toFileMap_lookup_of_not_mem _ _ _ h₂]
  by_cases hz : f.size ≠ 0
  · rw [if_pos hz, if_pos hz, objLookup_objInsert_self]
  · rw [if_neg hz, if_neg hz,
      foldl_toFileMap_lookup_of_not_mem _ _ _ h₁, objLookup_nil]

theorem sortDesc_pairwise (hist : List Snapshot) :
    (sortDesc hist).Pairwise (fun s t => t.timestamp ≤ s.timestamp) := by
  have h : (sortDesc hist).Pairwise
      (fun s t => decide (t.timestamp ≤ s.timestamp) = true) := by
    rw [sortDesc]
    exact List.sorted_mergeSort
      (fun a b c hab hbc => by
        simp only [decide_eq_true_eq] at *
        omega)
      (fun a b => by
        simp only [Bool.or_eq_true, decide_eq_true_eq]
        omega)
      hist
  exact h.imp (fun hd => by simpa using hd)

theorem sortDesc_perm (hist : List Snapshot) : (sortDesc hist).Perm hist :=
  List.mergeSort_perm hist _

theorem mkItem_name (pb : Int → String) (b a : JsObj (Option Int)) (w : Nat)
    (n : String) : (mkItem pb b a w n).name = n := by
  unfold mkItem
  dsimp only
  split <;> rfl

theorem mkItem_size (pb : Int → String) (b a : JsObj (Option Int)) (w : Nat)
    (n : String) : (mkItem pb b a w n).size = jsOr0 a n := by
  unfold mkItem
  dsimp only
  split <;> rfl

theorem mkItem_sizeBefore (pb : Int → String) (b a : JsObj (Option Int)) (w : Nat)
    (n : String) : (mkItem pb b a w n).sizeBefore = jsOr0 b n := by
  unfold mkItem
  dsimp only
  split <;> rfl

theorem mkItem_delta (pb : Int → String) (b a : JsObj (Option Int)) (w : Nat)
    (n : String) : (mkItem pb b a w n).delta = jsOr0 a n - jsOr0 b n := by
  unfold mkItem
  dsimp only
  split <;> rfl

theorem mkItem_color (pb : Int → String) (b a : JsObj (Option Int)) (w : Nat)
    (n : String) : (mkItem pb b a w n).color = sizeColor (jsOr0 a n) := by
  unfold mkItem
  dsimp only
  split <;> rfl

theorem reconcile_map_name (pb : Int → String) (b a : JsObj (Option Int)) :
    (reconcile pb b a).map Item.name = dedupe (objKeys b ++ objKeys a) := by
  rw [reconcile, List.map_map]
  have : Item.name ∘ mkItem pb b a (jsMaxLen (dedupe (objKeys b ++ objKeys a)))
      = id := by
    funext n
    exact mkItem_name pb b a _ n
  rw [this, List.map_id]

theorem mem_reconcile (pb : Int → String) (b a : JsObj (Option Int)) (item : Item)
    (h : item ∈ reconcile pb b a) :
    ∃ n ∈ dedupe (objKeys b ++ objKeys a),
      item = mkItem pb b a (jsMaxLen (dedupe (objKeys b ++ objKeys a))) n := by
  rw [reconcile] at h
  obtain ⟨n, hn, he⟩ := List.mem_map.mp h
  exact ⟨n, hn, he.symm⟩

theorem jsOr0_lookup_some (m : JsObj (Option Int)) (k : String) (v : Int)
    (h : objLookup m k = some (some v)) : jsOr0 m k = v := by
  rw [jsOr0, h]

theorem jsOr0_lookup_none (m : JsObj (Option Int)) (k : String)
    (h : objLookup m k = none) : jsOr0 m k = 0 := by
  rw [jsOr0, h]

theorem sizeColor_spec (s : Int) :
    (sizeColor s = "red" ↔ 100 * 1024 < s)
    ∧ (sizeColor s = "yellow" ↔ 40 * 1024 < s ∧ s ≤ 100 * 1024)
    ∧ (sizeColor s = "cyan" ↔ 20 * 1024 < s ∧ s ≤ 40 * 1024)
    ∧ (sizeColor s = "green" ↔ s ≤ 20 * 1024) := by
  unfold sizeColor
  by_cases h1 : s > 100 * 1024
  · rw [if_pos h1]
    exact ⟨⟨fun _ => h1, fun _ => rfl⟩,
      ⟨fun h => absurd h (by decide), fun h => False.elim (by omega)⟩,
      ⟨fun h => absurd h (by decide), fun h => False.elim (by omega)⟩,
      ⟨fun h => absurd h (by decide), fun h => False.elim (by omega)⟩⟩
  · rw [if_neg h1]
    by_cases h2 : s > 40 * 1024
    · rw [if_pos h2]
      exact ⟨⟨fun h => absurd h (by decide), fun h => False.elim (by omega)⟩,
        ⟨fun _ => ⟨h2, by omega⟩, fun _ => rfl⟩,
        ⟨fun h => absurd h (by decide), fun h => False.elim (by omega)⟩,
        ⟨fun h => absurd h (by decide), fun h => False.elim (by omega)⟩⟩
    · rw [if_neg h2]
      by_cases h3 : s > 20 * 1024
      · rw [if_pos h3]
        exact ⟨⟨fun h => absurd h (by decide), fun h => False.elim (by omega)⟩,
          ⟨fun h => absurd h (by decide), fun h => False.elim (by omega)⟩,
          ⟨fun _ => ⟨h3, by omega⟩, fun _ => rfl⟩,
          ⟨fun h => absurd h (by decide), fun h => False.elim (by omega)⟩⟩
      · rw [if_neg h3]
        exact ⟨⟨fun h => absurd h (by decide), fun h => False.elim (by omega)⟩,
          ⟨fun h => absurd h (by decide), fun h => False.elim (by omega)⟩,
          ⟨fun h => absurd h (by decide), fun h => False.elim (by omega)⟩,
          ⟨fun _ => by omega, fun _ => rfl⟩⟩

theorem mkItem_delta_none (pb : Int → String) (b a : JsObj (Option Int)) (w : Nat)
    (n : String) (h : (jsOr0 a n - jsOr0 b n).natAbs ≤ 1) :
    (mkItem pb b a w n).deltaText = Txt.raw ""
    ∧ (mkItem pb b a w n).sizeText
        = Txt.colored (sizeColor (jsOr0 a n)) (Txt.raw (pb (jsOr0 a n))) := by
  unfold mkItem
  dsimp only
  rw [if_neg (by omega : ¬(jsOr0 a n - jsOr0 b n ≠ 0 ∧ 1 < (jsOr0 a n - jsOr0 b n).natAbs))]
  exact ⟨rfl, rfl⟩

theorem mkItem_delta_big (pb : Int → String) (b a : JsObj (Option Int)) (w : Nat)
    (n : String) (h : 1024 < jsOr0 a n - jsOr0 b n) :
    (mkItem pb b a w n).deltaText
        = Txt.colored "red" (Txt.raw ("+" ++ pb (jsOr0 a n - jsOr0 b n)))
    ∧ (mkItem pb b a w n).sizeText
        = Txt.cat
            (Txt.bold (Txt.colored (sizeColor (jsOr0 a n)) (Txt.raw (pb (jsOr0 a n)))))
            (Txt.cat (Txt.raw " (")
              (Txt.cat
                (Txt.colored "red" (Txt.raw ("+" ++ pb (jsOr0 a n - jsOr0 b n))))
                (Txt.raw ")"))) := by
  unfold mkItem
  dsimp only
  rw [if_pos (⟨by omega, by omega⟩ :
      jsOr0 a n - jsOr0 b n ≠ 0 ∧ 1 < (jsOr0 a n - jsOr0 b n).natAbs)]
  rw [if_pos h, if_pos (by omega : (0 : Int) < jsOr0 a n - jsOr0 b n)]
  exact ⟨rfl, rfl⟩

theorem mkItem_delta_improve (pb : Int → String) (b a : JsObj (Option Int)) (w : Nat)
    (n : String) (h : jsOr0 a n - jsOr0 b n < -10) :
    (mkItem pb b a w n).deltaText
        = Txt.colored "green" (Txt.raw (pb (jsOr0 a n - jsOr0 b n)))
    ∧ (mkItem pb b a w n).sizeText
        = Txt.cat (Txt.colored (sizeColor (jsOr0 a n)) (Txt.raw (pb (jsOr0 a n))))
            (Txt.cat (Txt.raw " (")
              (Txt.cat
                (Txt.colored "green" (Txt.raw (pb (jsOr0 a n - jsOr0 b n))))
                (Txt.raw ")"))) := by
  unfold mkItem
  dsimp only
  rw [if_pos (⟨by omega, by omega⟩ :
      jsOr0 a n - jsOr0 b n ≠ 0 ∧ 1 < (jsOr0 a n - jsOr0 b n).natAbs)]
  rw [if_neg (by omega : ¬1024 < jsOr0 a n - jsOr0 b n), if_pos h,
    if_neg (by omega : ¬(0 : Int) < jsOr0 a n - jsOr0 b n)]
  exact ⟨rfl, rfl⟩

theorem mkItem_delta_plain (pb : Int → String) (b a : JsObj (Option Int)) (w : Nat)
    (n : String) (h1 : 1 < (jsOr0 a n - jsOr0 b n).natAbs)
    (h2 : -10 ≤ jsOr0 a n - jsOr0 b n) (h3 : jsOr0 a n - jsOr0 b n ≤ 1024) :
    (mkItem pb b a w n).deltaText
        = Txt.raw ((if 0 < jsOr0 a n - jsOr0 b n then "+" else "")
            ++ pb (jsOr0 a n - jsOr0 b n))
    ∧ (mkItem pb b a w n).sizeText
        = Txt.cat (Txt.colored (sizeColor (jsOr0 a n)) (Txt.raw (pb (jsOr0 a n))))
            (Txt.cat (Txt.raw " (")
              (Txt.cat
                (Txt.raw ((if 0 < jsOr0 a n - jsOr0 b n then "+" else "")
                  ++ pb (jsOr0 a n - jsOr0 b n)))
                (Txt.raw ")"))) := by
  unfold mkItem
  dsimp only
  rw [if_pos (⟨by omega, by omega⟩ :
      jsOr0 a n - jsOr0 b n ≠ 0 ∧ 1 < (jsOr0 a n - jsOr0 b n).natAbs)]
  rw [if_neg (by omega : ¬1024 < jsOr0 a n - jsOr0 b n),
    if_neg (by omega : ¬jsOr0 a n - jsOr0 b n < -10)]
  exact ⟨rfl, rfl⟩

theorem reconcile_delta_eq (pb : Int → String) (b a : JsObj (Option Int)) :
    ∀ it ∈ reconcile pb b a, it.delta = it.size - it.sizeBefore := by
  intro it h
  obtain ⟨n, hn, he⟩ := mem_reconcile pb b a it h
  subst he
  rw [mkItem_delta, mkItem_size, mkItem_sizeBefore]

/-! ### Claim theorems -/

/-- Claim C1: every reconciled record has `previousSize = before[key] || 0`
(the stored value when present and non-null, else 0), `currentSize =
after[key] || 0`, and `delta = currentSize - previousSize`; a key absent from
`after` yields `currentSize = 0` and `delta = -previousSize`. -/
theorem reconcile_delta_correct (pb : Int → String)
    (before after : JsObj (Option Int)) (item : Item)
    (hmem : item ∈ reconcile pb before after) :
    item.delta = item.size - item.sizeBefore
    ∧ item.sizeBefore = jsOr0 before item.name
    ∧ item.size = jsOr0 after item.name
    ∧ (∀ v : Int, objLookup before item.name = some (some v) → item.sizeBefore = v)
    ∧ (objLookup before item.name = none → item.sizeBefore = 0)
    ∧ (∀ v : Int, objLookup after item.name = some (some v) → item.size = v)
    ∧ (objLookup after item.name = none →
        item.size = 0 ∧ item.delta = -item.sizeBefore) := by
  obtain ⟨n, hn, he⟩ := mem_reconcile pb before after item hmem
  subst he
  rw [mkItem_delta, mkItem_size, mkItem_sizeBefore, mkItem_name]
  refine ⟨rfl, rfl, rfl, ?_, ?_, ?_, ?_⟩
  · exact fun v hv => jsOr0_lookup_some before n v hv
  · exact fun hv => jsOr0_lookup_none before n hv
  · exact fun v hv => jsOr0_lookup_some after n v hv
  · intro hv
    rw [jsOr0_lookup_none after n hv]
    exact ⟨rfl, by omega⟩

/-- Witness for C1 at `before = {a.js: 100}`, `after = {}`: the single record
for the vanished file has `delta = size - sizeBefore`. -/
theorem reconcile_delta_correct_witness :
    mkItem (fun _ => "") [("a.js", some 100)] [] 4 "a.js"
        ∈ reconcile (fun _ => "") [("a.js", some 100)] []
    ∧ (mkItem (fun _ => "") [("a.js", some 100)] [] 4 "a.js").delta
        = (mkItem (fun _ => "") [("a.js", some 100)] [] 4 "a.js").size
          - (mkItem (fun _ => "") [("a.js", some 100)] [] 4 "a.js").sizeBefore :=
  ⟨by decide,
    (reconcile_delta_correct (fun _ => "") [("a.js", some 100)] [] _ (by decide)).1⟩

/-- Claim C2: the reconciled key list is the union of the keys of `before`
and `after`, deduplicated with first occurrence winning: `before`'s keys in
original order, then the remaining `after` keys in original order; each key
appears exactly once and the key set is exactly the union. -/
theorem reconcile_union_keys (pb : Int → String)
    (before after : JsObj (Option Int))
    (hb : (objKeys before).Nodup) (ha : (objKeys after).Nodup) :
    (reconcile pb before after).map Item.name
        = objKeys before
          ++ (objKeys after).filter (fun k => !(objKeys before).contains k)
    ∧ ((reconcile pb before after).map Item.name).Nodup
    ∧ ∀ k, k ∈ (reconcile pb before after).map Item.name
        ↔ k ∈ objKeys before ∨ k ∈ objKeys after := by
  have h1 := reconcile_map_name pb before after
  have h2 := dedupe_append_eq (objKeys before) (objKeys after) hb ha
  have heq := h1.trans h2
  refine ⟨heq, ?_, ?_⟩
  · rw [heq]
    refine List.Nodup.append hb (List.Nodup.filter _ ha) ?_
    intro k hkb hkf
    have := (List.mem_filter.mp hkf).2
    rw [contains_eq_decide_mem] at this
    simp only [Bool.not_eq_true', decide_eq_false_iff_not] at this
    exact this hkb
  · intro k
    rw [heq]
    simp only [List.mem_append, List.mem_filter, contains_eq_decide_mem,
      Bool.not_eq_true', decide_eq_false_iff_not]
    constructor
    · rintro (h | ⟨h, _⟩)
      · exact Or.inl h
      · exact Or.inr h
    · rintro (h | h)
      · exact Or.inl h
      · by_cases hkb : k ∈ objKeys before
        · exact Or.inl hkb
        · exact Or.inr ⟨h, hkb⟩

/-- Witness for C2 at `before = {a.js, b.js}`, `after = {b.js, c.js}`:
the record keys are `[a.js, b.js, c.js]`. -/
theorem reconcile_union_keys_witness :
    (reconcile (fun _ => "")
        [("a.js", some 1), ("b.js", some 2)]
        [("b.js", some 3), ("c.js", some 4)]).map Item.name
      = objKeys (α := Option Int) [("a.js", some 1), ("b.js", some 2)]
        ++ (objKeys (α := Option Int) [("b.js", some 3), ("c.js", some 4)]).filter
            (fun k =>
              !(objKeys (α := Option Int)
                  [("a.js", some 1), ("b.js", some 2)]).contains k) :=
  (reconcile_union_keys (fun _ => "")
    [("a.js", some 1), ("b.js", some 2)]
    [("b.js", some 3), ("c.js", some 4)] (by decide) (by decide)).1

/-- Claim C5: the severity color of a record is red iff size > 100 KiB,
yellow iff 40 KiB < size ≤ 100 KiB, cyan iff 20 KiB < size ≤ 40 KiB, and
green otherwise (each boundary exclusive above). -/
theorem reconcile_severity_color (pb : Int → String)
    (before after : JsObj (Option Int)) (item : Item)
    (hmem : item ∈ reconcile pb before after) :
    (item.color = "red" ↔ 100 * 1024 < item.size)
    ∧ (item.color = "yellow" ↔ 40 * 1024 < item.size ∧ item.size ≤ 100 * 1024)
    ∧ (item.color = "cyan" ↔ 20 * 1024 < item.size ∧ item.size ≤ 40 * 1024)
    ∧ (item.color = "green" ↔ item.size ≤ 20 * 1024) := by
  obtain ⟨n, hn, he⟩ := mem_reconcile pb before after item hmem
  subst he
  rw [mkItem_color, mkItem_size]
  exact sizeColor_spec (jsOr0 after n)

/-- Witness for C5 at `after = {a.js: 102401}` (just above 100 KiB): red. -/
theorem reconcile_severity_color_witness :
    (mkItem (fun _ => "") [] [("a.js", some 102401)] 4 "a.js").color = "red" :=
  ((reconcile_severity_color (fun _ => "") [] [("a.js", some 102401)] _
      (by decide)).1).mpr (by decide)

/-- Claim C6: a record's delta annotation is empty iff `|delta| ≤ 1` (the size
text then carries no parenthesized delta); for `|delta| > 1` a sign-prefixed
delta string is appended to the size text; `delta > 1024` emphasizes the size
text and marks the delta critical (red); `delta < -10` marks it as an
improvement (green); deltas with `1 < |delta|`, `-10 ≤ delta ≤ 1024` get a
plain uncolored delta string. -/
theorem reconcile_delta_display (pb : Int → String)
    (before after : JsObj (Option Int)) (item : Item)
    (hmem : item ∈ reconcile pb before after) :
    (item.delta.natAbs ≤ 1 →
      item.deltaText = Txt.raw ""
      ∧ item.sizeText = Txt.colored item.color (Txt.raw (pb item.size)))
    ∧ (1024 < item.delta →
      item.deltaText = Txt.colored "red" (Txt.raw ("+" ++ pb item.delta))
      ∧ item.sizeText
          = Txt.cat (Txt.bold (Txt.colored item.color (Txt.raw (pb item.size))))
              (Txt.cat (Txt.raw " (") (Txt.cat item.deltaText (Txt.raw ")"))))
    ∧ (item.delta < -10 →
      item.deltaText = Txt.colored "green" (Txt.raw (pb item.delta))
      ∧ item.sizeText
          = Txt.cat (Txt.colored item.color (Txt.raw (pb item.size)))
              (Txt.cat (Txt.raw " (") (Txt.cat item.deltaText (Txt.raw ")"))))
    ∧ (1 < item.delta.natAbs → -10 ≤ item.delta → item.delta ≤ 1024 →
      item.deltaText
          = Txt.raw ((if 0 < item.delta then "+" else "") ++ pb item.delta)
      ∧ item.sizeText
          = Txt.cat (Txt.colored item.color (Txt.raw (pb item.size)))
              (Txt.cat (Txt.raw " (") (Txt.cat item.deltaText (Txt.raw ")")))) := by
  obtain ⟨n, hn, he⟩ := mem_reconcile pb before after item hmem
  subst he
  rw [mkItem_delta, mkItem_size, mkItem_color]
  refine ⟨?_, ?_, ?_, ?_⟩
  · intro h
    exact mkItem_delta_none pb before after _ n h
  · intro h
    obtain ⟨hd, hs⟩ := mkItem_delta_big pb before after
      (jsMaxLen (dedupe (objKeys before ++ objKeys after))) n h
    rw [hd, hs]
    exact ⟨rfl, rfl⟩
  · intro h
    obtain ⟨hd, hs⟩ := mkItem_delta_improve pb before after
      (jsMaxLen (dedupe (objKeys before ++ objKeys after))) n h
    rw [hd, hs]
    exact ⟨rfl, rfl⟩
  · intro h1 h2 h3
    obtain ⟨hd, hs⟩ := mkItem_delta_plain pb before after
      (jsMaxLen (dedupe (objKeys before ++ objKeys after))) n h1 h2 h3
    rw [hd, hs]
    exact ⟨rfl, rfl⟩

/-- Witness for C6 at `after = {a.js: 2000}` (delta = +2000 > 1024):
critical red annotation. -/
theorem reconcile_delta_display_witness :
    (mkItem (fun i => toString i) [] [("a.js", some 2000)] 4 "a.js").deltaText
      = Txt.colored "red"
          (Txt.raw ("+"
            ++ toString
              (mkItem (fun i => toString i) [] [("a.js", some 2000)] 4 "a.js").delta)) :=
  ((reconcile_delta_display (fun i => toString i) [] [("a.js", some 2000)] _
      (by decide)).2.1 (by decide)).1

/-- Claim C7: when two distinct raw filenames at positions `i < j` normalize
(dehash) to the same key `k`, and `j` is the last position mapping to `k`,
the constructed map sends `k` to the value of the later position only — the
later value overwrites the earlier one, with no summation. -/
theorem toMap_collision_last_wins (rawNames : List String)
    (values : List (Option Int)) (strip : String → String)
    (i j : Nat) (ri rj : String) (k : String)
    (hi : rawNames[i]? = some ri) (hj : rawNames[j]? = some rj)
    (hij : i < j) (hdist : ri ≠ rj) (hki : strip ri = k) (hkj : strip rj = k)
    (hlast : ∀ l, j < l → (rawNames.map strip)[l]? ≠ some k) :
    objLookup (toMap (rawNames.map strip) values) k
      = some (values.getD j none) := by
  refine toMap_lookup_last (rawNames.map strip) values j k ?_ hlast
  rw [List.getElem?_map, hj]
  simp [hkj]

/-- Witness for C7: raw names `[a.abc123.js, a.def456.js]` both dehashing to
`a.js`, with sizes 5 and 7: the map holds 7, not 5 and not 12. -/
theorem toMap_collision_last_wins_witness :
    (0 : Nat) < 1
    ∧ objLookup
        (toMap (["a.abc123.js", "a.def456.js"].map (fun _ => "a.js"))
          [some 5, some 7]) "a.js"
      = some ([some 5, some 7].getD 1 none) :=
  ⟨by decide,
    toMap_collision_last_wins ["a.abc123.js", "a.def456.js"] [some 5, some 7]
      (fun _ => "a.js") 0 1 "a.abc123.js" "a.def456.js" "a.js"
      (by decide) (by decide) (by decide) (by decide) rfl rfl
      (fun l hl => by
        rw [List.getElem?_eq_none (by simpa using hl)]
        exact fun h => Option.noConfusion h)⟩

/-- Claim C8: in the disk-scan fallback, whenever the enumerated files all
satisfy the glob contract (matched by the pattern, not excluded) and their
normalized names are distinct, each file's normalized name maps to exactly
that file's own compression outcome — a failed compression (`none`, i.e.
`null`) degrades only that file's entry while every other file keeps its
size, and the scan is a total function (it never aborts). -/
theorem getSizes_per_file (strip : String → String)
    (isMatched isExcluded : String → Bool) (compressFile : String → Option Int)
    (files : List String)
    (hglob : ∀ f ∈ files, isMatched f = true ∧ isExcluded f = false)
    (hnd : (files.map strip).Nodup) :
    ∀ f ∈ files,
      objLookup (getSizes strip isMatched isExcluded compressFile files) (strip f)
        = some (compressFile f) := by
  intro f hf
  have hff : filterFiles isMatched isExcluded files = files := by
    rw [filterFiles, List.filter_eq_self]
    intro a ha
    rw [(hglob a ha).1, (hglob a ha).2]
    rfl
  rw [getSizes, hff]
  obtain ⟨i, hilt, hif⟩ := List.mem_iff_getElem.mp hf
  have hji : (files.map strip)[i]? = some (strip f) := by
    rw [List.getElem?_map, List.getElem?_eq_getElem hilt]
    simp [hif]
  rw [toMap_lookup_nodup (files.map strip) (files.map compressFile) i (strip f)
    hnd hji]
  have : (files.map compressFile).getD i none = compressFile f := by
    rw [List.getD_eq_getElem?_getD, List.getElem?_map,
      List.getElem?_eq_getElem hilt, hif]
    rfl
  rw [this]

/-- Witness for C8: two files where compression fails for the first
(`none`) and succeeds for the second: the second file still maps to its
size. -/
theorem getSizes_per_file_witness :
    "b.js" ∈ ["a.js", "b.js"]
    ∧ objLookup
        (getSizes (fun s => s) (fun _ => true) (fun _ => false)
          (fun s => if s = "a.js" then none else some 9) ["a.js", "b.js"])
        "b.js"
      = some (if ("b.js" : String) = "a.js" then none else some 9) :=
  ⟨by decide,
    getSizes_per_file (fun s => s) (fun _ => true) (fun _ => false)
      (fun s => if s = "a.js" then none else some 9) ["a.js", "b.js"]
      (by decide) (by decide) "b.js" (by decide)⟩

theorem mkStats_files_any (now : Int) (files : List Item) :
    (mkStats now files).files.any (fun f => f.diff != 0)
      = files.any (fun it => it.size - it.sizeBefore != 0) := by
  rw [mkStats]
  dsimp only
  induction files with
  | nil => rfl
  | cons f rest ih =>
    rw [List.map_cons, List.any_cons, List.any_cons, ih]

theorem outputSizesModel_delta_eq (opt : Opt) (pb : Int → String)
    (strip : String → String) (isMatched isExcluded : String → Bool)
    (compressFile : String → Option Int) (r : Option (List Snapshot))
    (globFiles assetNames : List String) (assetSize : String → Int) (now : Int) :
    ∀ it ∈ (outputSizesModel opt pb strip isMatched isExcluded compressFile r
        globFiles assetNames assetSize now).1,
      it.delta = it.size - it.sizeBefore := by
  intro it h
  exact reconcile_delta_eq pb _ _ it h

/-- Claim C4: for a non-empty snapshot history, `load` returns the filename
to size map of the most recent snapshot (the head after the descending sort,
whose timestamp bounds every snapshot of the history), in which zero-size
entries are excluded (absent) and every nonzero-size entry maps its filename
to its recorded size. -/
theorem load_most_recent (hist : List Snapshot) (s : Snapshot)
    (rest : List Snapshot) (hs : readFromDiskPure (some hist) = s :: rest)
    (hnd : (s.files.map FileRec.filename).Nodup) (fallback : JsObj (Option Int)) :
    loadPure (some hist) fallback = toFileMap s.files
    ∧ (∀ t ∈ hist, t.timestamp ≤ s.timestamp)
    ∧ ∀ f ∈ s.files,
        (f.size = 0 → objLookup (toFileMap s.files) f.filename = none)
        ∧ (f.size ≠ 0 →
            objLookup (toFileMap s.files) f.filename = some (some f.size)) := by
  have hs' : sortDesc hist = s :: rest := hs
  refine ⟨?_, ?_, ?_⟩
  · rw [loadPure, hs]
  · intro t ht
    have htm : t ∈ sortDesc hist := (sortDesc_perm hist).mem_iff.mpr ht
    rw [hs'] at htm
    rcases List.mem_cons.mp htm with he | hr
    · rw [he]
    · have hpw := sortDesc_pairwise hist
      rw [hs'] at hpw
      exact (List.pairwise_cons.mp hpw).1 t hr
  · intro f hf
    have hl := toFileMap_lookup s.files hnd f hf
    constructor
    · intro hz
      rw [hl, if_neg (by omega)]
    · intro hnz
      rw [hl, if_pos hnz]

/-- Witness for C4 at a one-snapshot history whose files are
`a.js` (size 10) and `b.js` (size 0): load returns that snapshot's map. -/
theorem load_most_recent_witness :
    loadPure (some [⟨5, [⟨"a.js", 0, 10, 10⟩, ⟨"b.js", 0, 0, 0⟩]⟩]) []
      = toFileMap [⟨"a.js", 0, 10, 10⟩, ⟨"b.js", 0, 0, 0⟩] :=
  (load_most_recent [⟨5, [⟨"a.js", 0, 10, 10⟩, ⟨"b.js", 0, 0, 0⟩]⟩]
    ⟨5, [⟨"a.js", 0, 10, 10⟩, ⟨"b.js", 0, 0, 0⟩]⟩ []
    (by simp [readFromDiskPure, sortDesc]) (by decide) []).1

/-- Claim C9: a failed read of the persisted history (missing file or
unparsable content) yields the empty history without surfacing an error
(the read is a total function), and a successful read yields a permutation
of the stored snapshots sorted descending by timestamp. -/
theorem readFromDisk_failure_and_sorted :
    readFromDiskPure none = []
    ∧ ∀ hist : List Snapshot,
        (readFromDiskPure (some hist)).Pairwise
          (fun s t => t.timestamp ≤ s.timestamp)
        ∧ (readFromDiskPure (some hist)).Perm hist :=
  ⟨rfl, fun hist => ⟨sortDesc_pairwise hist, sortDesc_perm hist⟩⟩

/-- Claim C3: an `outputSizes` invocation writes nothing (no local file
write, no remote size publish) when the mode is not "production" or every
record's diff is zero; when the mode is "production" and some record has a
nonzero diff, the history is read, the new snapshot is prepended at
position 0 and the whole history written back, with the local write and the
remote size publish each independently enabled by their flags. -/
theorem outputSizes_persist_gate (opt : Opt) (pb : Int → String)
    (strip : String → String) (isMatched isExcluded : String → Bool)
    (compressFile : String → Option Int) (r : Option (List Snapshot))
    (globFiles assetNames : List String) (assetSize : String → Int) (now : Int)
    (items : List Item) (eff : SaveEffects)
    (hitems : items = (outputSizesModel opt pb strip isMatched isExcluded
        compressFile r globFiles assetNames assetSize now).1)
    (heff : eff = (outputSizesModel opt pb strip isMatched isExcluded
        compressFile r globFiles assetNames assetSize now).2) :
    ((opt.mode ≠ "production" ∨ ∀ it ∈ items, it.delta = 0) →
      eff.disk.written = none ∧ eff.disk.publishedSizes = none)
    ∧ (opt.mode = "production" → (∃ it ∈ items, it.delta ≠ 0) →
      eff.disk.written
          = (if opt.writeFile then some (mkStats now items :: readFromDiskPure r)
            else none)
      ∧ eff.disk.publishedSizes
          = (if opt.publish then some (mkStats now items :: readFromDiskPure r)
            else none)) := by
  have hdisk : eff.disk = writeToDisk opt r (mkStats now items) := by
    rw [heff, hitems]
    rfl
  constructor
  · intro h
    rw [hdisk]
    unfold writeToDisk
    rcases h with hm | hz
    · rw [if_neg (fun hc => hm hc.1)]
      exact ⟨rfl, rfl⟩
    · have hany : (mkStats now items).files.any (fun f => f.diff != 0) = false := by
        rw [mkStats_files_any, List.any_eq_false]
        intro it hit
        have hd := outputSizesModel_delta_eq opt pb strip isMatched isExcluded
          compressFile r globFiles assetNames assetSize now it (hitems ▸ hit)
        have hz' := hz it hit
        simp only [bne_iff_ne, ne_eq, Decidable.not_not]
        omega
      rw [if_neg (fun hc => by rw [hany] at hc; exact Bool.false_ne_true hc.2)]
      exact ⟨rfl, rfl⟩
  · intro hm hex
    obtain ⟨it, hit, hne⟩ := hex
    have hd := outputSizesModel_delta_eq opt pb strip isMatched isExcluded
      compressFile r globFiles assetNames assetSize now it (hitems ▸ hit)
    have hany : (mkStats now items).files.any (fun f => f.diff != 0) = true := by
      rw [mkStats_files_any, List.any_eq_true]
      exact ⟨it, hit, bne_iff_ne.mpr (by omega)⟩
    rw [hdisk]
    unfold writeToDisk
    rw [if_pos ⟨hm, hany⟩]
    exact ⟨rfl, rfl⟩

/-- Witness for C3: development mode (`mode = "dev"`) never writes. -/
theorem outputSizes_persist_gate_witness :
    ((outputSizesModel ⟨"dev", true, true, false⟩ (fun _ => "") (fun s => s)
        (fun _ => true) (fun _ => false) (fun _ => none) none [] ["a.js"]
        (fun _ => 5) 0).2).disk.written = none :=
  ((outputSizes_persist_gate ⟨"dev", true, true, false⟩ (fun _ => "")
      (fun s => s) (fun _ => true) (fun _ => false) (fun _ => none) none []
      ["a.js"] (fun _ => 5) 0 _ _ rfl rfl).1 (Or.inl (by decide))).1

/-- Claim C10: with the publish option set, `publishDiff` receives the new
snapshot on every invocation of `outputSizes`, regardless of the persistence
gate (also when the mode is not "production" or all deltas are zero), and the
custom save hook, when configured, likewise receives the new snapshot on
every invocation; only the local write and `publishSizes` sit behind the
production-mode / nonzero-delta gate. -/
theorem outputSizes_publishDiff_ungated (opt : Opt) (pb : Int → String)
    (strip : String → String) (isMatched isExcluded : String → Bool)
    (compressFile : String → Option Int) (r : Option (List Snapshot))
    (globFiles assetNames : List String) (assetSize : String → Int) (now : Int)
    (items : List Item) (eff : SaveEffects)
    (hitems : items = (outputSizesModel opt pb strip isMatched isExcluded
        compressFile r globFiles assetNames assetSize now).1)
    (heff : eff = (outputSizesModel opt pb strip isMatched isExcluded
        compressFile r globFiles assetNames assetSize now).2) :
    (opt.publish = true → eff.publishedDiff = some (mkStats now items))
    ∧ (opt.publish = false → eff.publishedDiff = none)
    ∧ (opt.hasSave = true → eff.savedHook = some (mkStats now items))
    ∧ (opt.hasSave = false → eff.savedHook = none)
    ∧ ((opt.mode ≠ "production" ∨ ∀ it ∈ items, it.delta = 0) →
        eff.disk.written = none
        ∧ eff.disk.publishedSizes = none
        ∧ (opt.publish = true → eff.publishedDiff = some (mkStats now items))
        ∧ (opt.hasSave = true → eff.savedHook = some (mkStats now items))) := by
  have hpd : eff.publishedDiff
      = if opt.publish then some (mkStats now items) else none := by
    rw [heff, hitems]
    rfl
  have hsh : eff.savedHook
      = if opt.hasSave then some (mkStats now items) else none := by
    rw [heff, hitems]
    rfl
  have hdisk : eff.disk = writeToDisk opt r (mkStats now items) := by
    rw [heff, hitems]
    rfl
  refine ⟨?_, ?_, ?_, ?_, ?_⟩
  · intro h
    rw [hpd, if_pos h]
  · intro h
    rw [hpd, h]
    rfl
  · intro h
    rw [hsh, if_pos h]
  · intro h
    rw [hsh, h]
    rfl
  · intro h
    have hclosed : eff.disk.written = none ∧ eff.disk.publishedSizes = none := by
      rw [hdisk]
      unfold writeToDisk
      rcases h with hm | hz
      · rw [if_neg (fun hc => hm hc.1)]
        exact ⟨rfl, rfl⟩
      · have hany : (mkStats now items).files.any (fun f => f.diff != 0)
            = false := by
          rw [mkStats_files_any, List.any_eq_false]
          intro it hit
          have hd := outputSizesModel_delta_eq opt pb strip isMatched isExcluded
            compressFile r globFiles assetNames assetSize now it (hitems ▸ hit)
          have hz' := hz it hit
          simp only [bne_iff_ne, ne_eq, Decidable.not_not]
          omega
        rw [if_neg (fun hc => by rw [hany] at hc; exact Bool.false_ne_true hc.2)]
        exact ⟨rfl, rfl⟩
    refine ⟨hclosed.1, hclosed.2, ?_, ?_⟩
    · intro hp
      rw [hpd, if_pos hp]
    · intro hsv
      rw [hsh, if_pos hsv]

/-- Witness for C10: in development mode with publish on, `publishDiff`
still receives the new snapshot. -/
theorem outputSizes_publishDiff_ungated_witness :
    ((outputSizesModel ⟨"dev", true, true, false⟩ (fun _ => "") (fun s => s)
        (fun _ => true) (fun _ => false) (fun _ => none) none [] ["a.js"]
        (fun _ => 5) 0).2).publishedDiff
      = some (mkStats 0
          (outputSizesModel ⟨"dev", true, true, false⟩ (fun _ => "")
            (fun s => s) (fun _ => true) (fun _ => false) (fun _ => none) none
            [] ["a.js"] (fun _ => 5) 0).1) :=
  (outputSizes_publishDiff_ungated ⟨"dev", true, true, false⟩ (fun _ => "")
      (fun s => s) (fun _ => true) (fun _ => false) (fun _ => none) none []
      ["a.js"] (fun _ => 5) 0 _ _ rfl rfl).1 rfl

end SizePluginCore
